import Mathlib

/-!
Verification of `rcview_pytools` (files `rcview_pytools/extras.py` and
`rcview_pytools/constants.py`) against its natural-language specification.

The Python source is shallowly embedded:
* numeric values are modelled as rationals (`ℚ`), with numpy's
  round-half-to-even (`numpy.around`) made explicit;
* Python strings are modelled as `List Char`;
* the external libraries (`mgrs`, `urllib.parse.quote`, the `arcgis` SDK)
  are abstracted: their calls become function parameters or fields of an
  explicit environment record, and the remote side effects of the patched
  `copy_feature_layer_collection` method (service creation, deletion,
  `add_to_definition`) are recorded in an explicit result record;
* raised exceptions become explicit error values.
-/

/-! ### Exceptions -/

/-- The Python exception kinds raised by the embedded code. -/
inductive PyErr where
  | valueError
  | typeError
  | indexError
  | nameError
  | genericException
  deriving DecidableEq, Repr

/-! ### Round-half-to-even and `numpy.around`

`numpy.around(x, n)` rounds `x` to `n` decimal places using IEEE
round-half-to-even.  On rationals that is: scale by `10 ^ n`, round the
scaled value half-to-even to an integer, and scale back. -/

/-- Round a rational to the nearest integer, ties to the even integer
(IEEE round-half-to-even, the rounding used by `numpy.around`). -/
def rhe (q : ℚ) : ℤ :=
  if q - ⌊q⌋ < 1/2 then ⌊q⌋
  else if 1/2 < q - ⌊q⌋ then ⌊q⌋ + 1
  else if ⌊q⌋ % 2 = 0 then ⌊q⌋ else ⌊q⌋ + 1

/-- Embedding of `numpy.around(x, decimals)` on rationals (`decimals` may be
negative, exactly as in numpy). -/
def npAround (x : ℚ) (decimals : ℤ) : ℚ :=
  (rhe (x * (10 : ℚ) ^ decimals) : ℚ) / (10 : ℚ) ^ decimals

/-! ### `round_significant` (extras.py lines 12-24)

```python
def round_significant(x, p=2):
    if x == 0.0:
        return x
    elif x < 0:
        raise ValueError('Value must be positive.')
    else:
        return _numpy.around(x, -int(_numpy.floor(_numpy.log10(x))) + (p - 1))
```

`floor(log10 x)` for a positive rational `x` is `Int.log 10 x`
(Mathlib's `Real.floor_logb_natCast`: `⌊Real.logb 10 x⌋ = Int.log 10 x`),
and `int(...)` applied to the integer-valued float is the identity. -/

/-- Embedding of `round_significant`.  A raised `ValueError` becomes
`Except.error`. -/
def round_significant (x : ℚ) (p : ℕ := 2) : Except PyErr ℚ :=
  if x = 0 then .ok x
  else if x < 0 then .error .valueError
  else .ok (npAround x (-(Int.log 10 x) + ((p : ℤ) - 1)))

/-! Basic bounds on `rhe`. -/

theorem rhe_le_floor_add_one (q : ℚ) : rhe q ≤ ⌊q⌋ + 1 := by
  unfold rhe
  split
  · omega
  · split
    · omega
    · split <;> omega

theorem floor_le_rhe (q : ℚ) : ⌊q⌋ ≤ rhe q := by
  unfold rhe
  split
  · omega
  · split
    · omega
    · split <;> omega

theorem rhe_nonneg {q : ℚ} (hq : 0 ≤ q) : 0 ≤ rhe q := by
  have h := floor_le_rhe q
  have h0 : (0 : ℤ) ≤ ⌊q⌋ := Int.floor_nonneg.mpr hq
  omega

theorem rhe_le_of_lt_int {q : ℚ} {N : ℤ} (h : q < (N : ℚ)) : rhe q ≤ N := by
  have h1 : ⌊q⌋ < N := Int.floor_lt.mpr h
  have h2 := rhe_le_floor_add_one q
  omega

/-- `Int.log` over a positive rational is unchanged by the cast to `ℝ`. -/
theorem int_log_real_cast (x : ℚ) (hx : 0 < x) :
    Int.log 10 (x : ℝ) = Int.log 10 x := by
  have hb : 1 < 10 := by norm_num
  have hx' : 0 < (x : ℝ) := by exact_mod_cast hx
  apply le_antisymm
  · rw [← Int.zpow_le_iff_le_log hb hx]
    have h := Int.zpow_log_le_self hb hx'
    apply Rat.cast_le (K := ℝ) |>.mp
    rw [Rat.cast_zpow, Rat.cast_natCast]
    exact h
  · rw [← Int.zpow_le_iff_le_log hb hx']
    have h := Int.zpow_log_le_self hb hx
    have h' := Rat.cast_le (K := ℝ) |>.mpr h
    rw [Rat.cast_zpow, Rat.cast_natCast] at h'
    exact h'

/-- C4. For every strictly positive rational `x` and precision `p ≥ 1`,
`round_significant x p` succeeds and equals `x` rounded (half-to-even, as
numpy does) at decimal position `-(⌊log10 x⌋) + (p - 1)`; the result is of
the form `m * 10 ^ e` with `m < 10 ^ p`, so it carries at most `p`
significant digits; and the default precision is `2`. -/
theorem round_significant_correct (x : ℚ) (p : ℕ) (hx : 0 < x) (hp : 1 ≤ p) :
    round_significant x p
      = .ok (npAround x (-⌊Real.logb 10 (x : ℝ)⌋ + ((p : ℤ) - 1)))
    ∧ (∃ m : ℕ, ∃ e : ℤ,
        round_significant x p = .ok ((m : ℚ) * (10 : ℚ) ^ e) ∧ m < 10 ^ p)
    ∧ round_significant x = round_significant x 2 := by
  have hx0 : x ≠ 0 := ne_of_gt hx
  have hxneg : ¬x < 0 := not_lt.mpr (le_of_lt hx)
  have hlog : ⌊Real.logb 10 (x : ℝ)⌋ = Int.log 10 x := by
    rw [show (10 : ℝ) = ((10 : ℕ) : ℝ) by norm_num,
      Real.floor_logb_natCast (b := 10) (by positivity : (0:ℝ) ≤ (x:ℝ))]
    exact int_log_real_cast x hx
  have hval : round_significant x p
      = .ok (npAround x (-(Int.log 10 x) + ((p : ℤ) - 1))) := by
    unfold round_significant
    rw [if_neg hx0, if_neg hxneg]
  refine ⟨by rw [hval, hlog], ?_, rfl⟩
  -- the significant-digit bound
  set L : ℤ := Int.log 10 x with hL
  set k : ℤ := -L + ((p : ℤ) - 1) with hk
  have h10 : (10 : ℚ) ≠ 0 := by norm_num
  have hscale : (0 : ℚ) < (10 : ℚ) ^ k := by positivity
  -- x * 10 ^ k < 10 ^ p
  have hxlt : x < (10 : ℚ) ^ (L + 1) := Int.lt_zpow_succ_log_self (by norm_num) x
  have hqlt : x * (10 : ℚ) ^ k < ((10 : ℚ) ^ (p : ℕ) : ℚ) := by
    have h1 : x * (10 : ℚ) ^ k < (10 : ℚ) ^ (L + 1) * (10 : ℚ) ^ k :=
      (mul_lt_mul_right hscale).mpr hxlt
    have h2 : (10 : ℚ) ^ (L + 1) * (10 : ℚ) ^ k = (10 : ℚ) ^ (L + 1 + k) :=
      (zpow_add₀ h10 (L + 1) k).symm
    have h3 : L + 1 + k = (p : ℤ) := by rw [hk]; ring
    calc x * (10 : ℚ) ^ k < (10 : ℚ) ^ (L + 1) * (10 : ℚ) ^ k := h1
      _ = (10 : ℚ) ^ (L + 1 + k) := h2
      _ = (10 : ℚ) ^ ((p : ℤ)) := by rw [h3]
      _ = (10 : ℚ) ^ (p : ℕ) := by rw [zpow_natCast]
  have hqnn : (0 : ℚ) ≤ x * (10 : ℚ) ^ k := by positivity
  set r : ℤ := rhe (x * (10 : ℚ) ^ k) with hr
  have hrnn : 0 ≤ r := rhe_nonneg hqnn
  have hrle : r ≤ (10 : ℤ) ^ (p : ℕ) := by
    apply rhe_le_of_lt_int
    have : (((10 : ℤ) ^ (p : ℕ) : ℤ) : ℚ) = (10 : ℚ) ^ (p : ℕ) := by push_cast; ring
    rw [this]; exact hqlt
  have hres : round_significant x p = .ok ((r : ℚ) / (10 : ℚ) ^ k) := by
    rw [hval]; rfl
  rcases lt_or_eq_of_le hrle with hlt | heq
  · -- rounded value below 10 ^ p: take m = r itself
    refine ⟨r.toNat, -k, ?_, ?_⟩
    · rw [hres]
      congr 1
      have hcast : ((r.toNat : ℕ) : ℚ) = (r : ℚ) := by
        exact_mod_cast congrArg (fun z : ℤ => (z : ℚ)) (Int.toNat_of_nonneg hrnn)
      rw [hcast, zpow_neg, div_eq_mul_inv]
    · have h1 : (r.toNat : ℤ) = r := Int.toNat_of_nonneg hrnn
      have h2 : ((10 : ℤ) ^ (p : ℕ) : ℤ) = ((10 ^ p : ℕ) : ℤ) := by push_cast; ring
      omega
  · -- rounding carried over to exactly 10 ^ p: one significant digit
    refine ⟨1, (p : ℤ) - k, ?_, ?_⟩
    · rw [hres]
      congr 1
      rw [heq]
      push_cast
      rw [zpow_sub₀ h10, zpow_natCast]
      ring
    · have : (10 : ℕ) ^ p ≥ 10 ^ 1 := Nat.pow_le_pow_right (by norm_num) hp
      omega

/-- C8. `round_significant` raises `ValueError`, and nothing else, exactly
on strictly negative inputs: the result is `.error .valueError` iff
`x < 0`, every raised error occurs only for `x < 0` (and is then
`ValueError`), and `0` is returned unchanged for every precision. -/
theorem round_significant_error_iff (x : ℚ) (p : ℕ) :
    (round_significant x p = .error .valueError ↔ x < 0)
    ∧ ((∃ e, round_significant x p = .error e) ↔ x < 0)
    ∧ round_significant 0 p = .ok 0 := by
  have herr : x < 0 → round_significant x p = .error .valueError := by
    intro hneg
    unfold round_significant
    rw [if_neg (ne_of_lt hneg), if_pos hneg]
  have hok : ∀ e, round_significant x p = .error e → x < 0 := by
    intro e he
    unfold round_significant at he
    by_contra hneg
    rcases eq_or_ne x 0 with rfl | hx0
    · simp at he
    · rw [if_neg hx0, if_neg hneg] at he
      exact Except.noConfusion he
  exact ⟨⟨hok .valueError, herr⟩,
    ⟨fun ⟨e, he⟩ => hok e he, fun hneg => ⟨.valueError, herr hneg⟩⟩, rfl⟩

/-! ### Decimal digit strings

Python strings are modelled as `List Char`.  `natRepr` is the decimal
rendering of a natural number (what `'%d'`/`str` produce), `valDigits` the
inverse evaluation used to state that a digit string denotes a value. -/

/-- The character of a decimal digit. -/
def digitChar (d : ℕ) : Char := Char.ofNat (48 + d)

/-- Decimal rendering, structurally recursive on a fuel bound so that it
evaluates by kernel reduction. -/
def natReprGo : ℕ → ℕ → List Char
  | 0, _ => []
  | fuel + 1, n =>
    if n < 10 then [digitChar n]
    else natReprGo fuel (n / 10) ++ [digitChar (n % 10)]

/-- Decimal rendering of a natural number, most significant digit first. -/
def natRepr (n : ℕ) : List Char := natReprGo (n + 1) n

theorem natReprGo_fuel : ∀ f1 n, n < f1 → ∀ f2, n < f2 →
    natReprGo f1 n = natReprGo f2 n := by
  intro f1
  induction f1 with
  | zero => intro n hn; omega
  | succ k ih =>
    intro n hn f2 hn2
    match f2, hn2 with
    | m + 1, _ =>
      simp only [natReprGo]
      by_cases h : n < 10
      · rw [if_pos h, if_pos h]
      · rw [if_neg h, if_neg h]
        have hlt : n / 10 < n := Nat.div_lt_self (by omega) (by norm_num)
        rw [ih (n / 10) (by omega) m (by omega)]

/-- The recursive unfolding of `natRepr`. -/
theorem natRepr_eq (n : ℕ) :
    natRepr n = if n < 10 then [digitChar n]
      else natRepr (n / 10) ++ [digitChar (n % 10)] := by
  unfold natRepr
  conv_lhs => rw [natReprGo]
  by_cases h : n < 10
  · rw [if_pos h, if_pos h]
  · rw [if_neg h, if_neg h]
    have hlt : n / 10 < n := Nat.div_lt_self (by omega) (by norm_num)
    rw [natReprGo_fuel n (n / 10) (by omega) (n / 10 + 1) (by omega)]

/-- The numeric value of a decimal digit string. -/
def valDigits (s : List Char) : ℕ :=
  s.foldl (fun a c => 10 * a + (c.toNat - 48)) 0

theorem digitChar_toNat : ∀ d, d < 10 → (digitChar d).toNat = 48 + d := by decide

theorem digitChar_isDigit : ∀ d, d < 10 → (digitChar d).isDigit = true := by decide

theorem natRepr_foldl (a : ℕ) (n : ℕ) :
    List.foldl (fun a c => 10 * a + (c.toNat - 48)) a (natRepr n)
      = a * 10 ^ (natRepr n).length + n := by
  induction n using Nat.strong_induction_on generalizing a with
  | _ n ih =>
    rw [natRepr_eq]
    by_cases h : n < 10
    · rw [if_pos h]
      simp [digitChar_toNat n h]
      ring
    · rw [if_neg h]
      have hdiv : n / 10 < n := Nat.div_lt_self (by omega) (by norm_num)
      rw [List.foldl_append, ih (n / 10) hdiv a]
      simp [digitChar_toNat (n % 10) (Nat.mod_lt _ (by norm_num))]
      have hn : 10 * (n / 10) + n % 10 = n := Nat.div_add_mod n 10
      ring_nf
      omega

theorem natRepr_val (n : ℕ) : valDigits (natRepr n) = n := by
  have h := natRepr_foldl 0 n
  simpa [valDigits] using h

theorem natRepr_length_le (k : ℕ) : ∀ n, n < 10 ^ (k + 1) → (natRepr n).length ≤ k + 1 := by
  induction k with
  | zero =>
    intro n hn
    rw [natRepr_eq, if_pos (by simpa using hn)]
    simp
  | succ k ih =>
    intro n hn
    rw [natRepr_eq]
    by_cases h : n < 10
    · rw [if_pos h]; simp
    · rw [if_neg h]
      have hdiv : n / 10 < 10 ^ (k + 1) := by
        rw [Nat.div_lt_iff_lt_mul (by norm_num)]
        calc n < 10 ^ (k + 1 + 1) := hn
          _ = 10 ^ (k + 1) * 10 := by ring
      have := ih (n / 10) hdiv
      simp only [List.length_append, List.length_cons, List.length_nil]
      omega

theorem natRepr_isDigit : ∀ n, ∀ c ∈ natRepr n, c.isDigit = true := by
  intro n
  induction n using Nat.strong_induction_on with
  | _ n ih =>
    rw [natRepr_eq]
    by_cases h : n < 10
    · rw [if_pos h]
      intro c hc
      simp at hc
      subst hc
      exact digitChar_isDigit n h
    · rw [if_neg h]
      intro c hc
      rcases List.mem_append.mp hc with hc | hc
      · exact ih (n / 10) (Nat.div_lt_self (by omega) (by norm_num)) c hc
      · simp at hc
        subst hc
        exact digitChar_isDigit (n % 10) (Nat.mod_lt _ (by norm_num))

theorem natRepr_ne_nil (n : ℕ) : natRepr n ≠ [] := by
  rw [natRepr_eq]
  by_cases h : n < 10
  · rw [if_pos h]; simp
  · rw [if_neg h]; simp

/-- Left-pad a digit string with zeros to width `w` (what `'%0Nd'` inside a
`%f` fractional part does). -/
def padZeros (w : ℕ) (s : List Char) : List Char :=
  List.replicate (w - s.length) '0' ++ s

theorem valDigits_padZeros (w : ℕ) (s : List Char) :
    valDigits (padZeros w s) = valDigits s := by
  unfold padZeros valDigits
  rw [List.foldl_append]
  congr 1
  induction (w - s.length) with
  | zero => simp
  | succ k ih => simpa using ih

theorem padZeros_length {w : ℕ} {s : List Char} (h : s.length ≤ w) :
    (padZeros w s).length = w := by
  simp [padZeros]
  omega

/-! ### Python `'{:w.pf}'` float formatting

`'{0:2.5f}'.format(x)`: fixed-point with `p` digits after the point
(rounded half-to-even), right-aligned to a minimum field width `w`. -/

/-- Fixed-point rendering with `prec` digits after the decimal point. -/
def pyFixed (prec : ℕ) (q : ℚ) : List Char :=
  (if q < 0 then ['-'] else [])
    ++ natRepr ((rhe (q * (10 : ℚ) ^ prec)).natAbs / 10 ^ prec)
    ++ ['.']
    ++ padZeros prec (natRepr ((rhe (q * (10 : ℚ) ^ prec)).natAbs % 10 ^ prec))

/-- Embedding of the format spec `'{:w.pf}'`: fixed-point with `prec`
decimals, space-padded on the left up to width `w`. -/
def pyFormatFloat (w prec : ℕ) (q : ℚ) : List Char :=
  if (pyFixed prec q).length < w then
    List.replicate (w - (pyFixed prec q).length) ' ' ++ pyFixed prec q
  else pyFixed prec q

/-! ### `google_maps_url` and `apple_maps_url` (extras.py lines 40-60)

```python
def google_maps_url(latitude, longitude):
    return 'https://www.google.com/maps/place/{0:2.5f},{1:3.5f}/@{0:2.5f},{1:3.5f},18z'.\
        format(latitude, longitude)

def apple_maps_url(latitude, longitude, label='X'):
    return 'http://maps.apple.com/?ll={0:2.5f},{1:3.5f}&q={2:s}'.format(
        latitude, longitude, _urllib.parse.quote(label))
```

`urllib.parse.quote` belongs to the standard library, not to this
repository, so it is abstracted as a function parameter `quote`. -/

def google_maps_url (lat lon : ℚ) : List Char :=
  "https://www.google.com/maps/place/".toList
    ++ pyFormatFloat 2 5 lat ++ [','] ++ pyFormatFloat 3 5 lon
    ++ "/@".toList
    ++ pyFormatFloat 2 5 lat ++ [','] ++ pyFormatFloat 3 5 lon
    ++ ",18z".toList

def apple_maps_url (quote : List Char → List Char) (lat lon : ℚ)
    (label : List Char) : List Char :=
  "http://maps.apple.com/?ll=".toList
    ++ pyFormatFloat 2 5 lat ++ [','] ++ pyFormatFloat 3 5 lon
    ++ "&q=".toList ++ quote label

/-- `s` is the fixed-point rendering of `q` with exactly five digits after
the decimal point: an optional minus sign, a nonempty run of digits, a
point, and exactly five digits, denoting `q` rounded half-to-even at the
fifth decimal. -/
def fixedPointFive (s : List Char) (q : ℚ) : Prop :=
  ∃ ip frac : List Char,
    s = (if q < 0 then ['-'] else []) ++ ip ++ ['.'] ++ frac
    ∧ ip ≠ []
    ∧ frac.length = 5
    ∧ (∀ c ∈ ip, c.isDigit = true)
    ∧ (∀ c ∈ frac, c.isDigit = true)
    ∧ valDigits ip * 10 ^ 5 + valDigits frac = (rhe (q * (10 : ℚ) ^ 5)).natAbs

theorem pyFixed_fixedPointFive (q : ℚ) : fixedPointFive (pyFixed 5 q) q := by
  refine ⟨natRepr ((rhe (q * (10 : ℚ) ^ 5)).natAbs / 10 ^ 5),
    padZeros 5 (natRepr ((rhe (q * (10 : ℚ) ^ 5)).natAbs % 10 ^ 5)), ?_, ?_, ?_, ?_, ?_, ?_⟩
  · rfl
  · exact natRepr_ne_nil _
  · apply padZeros_length
    have hmod : (rhe (q * (10 : ℚ) ^ 5)).natAbs % 10 ^ 5 < 10 ^ 5 :=
      Nat.mod_lt _ (by norm_num)
    exact natRepr_length_le 4 _ hmod
  · exact natRepr_isDigit _
  · intro c hc
    rcases List.mem_append.mp hc with hc | hc
    · have := List.eq_of_mem_replicate hc
      subst this
      decide
    · exact natRepr_isDigit _ c hc
  · rw [natRepr_val, valDigits_padZeros, natRepr_val]
    omega

theorem pyFixed_length_ge (q : ℚ) : 7 ≤ (pyFixed 5 q).length := by
  have h1 : 0 < (natRepr ((rhe (q * (10 : ℚ) ^ 5)).natAbs / 10 ^ 5)).length :=
    List.length_pos.mpr (natRepr_ne_nil _)
  have h2 : (padZeros 5 (natRepr ((rhe (q * (10 : ℚ) ^ 5)).natAbs % 10 ^ 5))).length = 5 := by
    apply padZeros_length
    exact natRepr_length_le 4 _ (Nat.mod_lt _ (by norm_num))
  unfold pyFixed
  split <;>
    simp only [List.length_append, List.length_cons, List.length_nil] <;>
    omega

theorem pyFormatFloat_no_pad {w : ℕ} (hw : w ≤ 7) (q : ℚ) :
    pyFormatFloat w 5 q = pyFixed 5 q := by
  unfold pyFormatFloat
  rw [if_neg]
  have := pyFixed_length_ge q
  omega

/-- C5. The two URL builders produce exactly the template strings of the
source, with latitude and longitude rendered in fixed-point with exactly
five digits after the decimal point (the width-2/width-3 field of the
format spec never pads, since a `%.5f` rendering has at least 7
characters), and with the label URL-quoted before insertion. -/
theorem maps_url_correct (quote : List Char → List Char) (lat lon : ℚ)
    (label : List Char) :
    google_maps_url lat lon
      = "https://www.google.com/maps/place/".toList
          ++ pyFixed 5 lat ++ [','] ++ pyFixed 5 lon
          ++ "/@".toList
          ++ pyFixed 5 lat ++ [','] ++ pyFixed 5 lon
          ++ ",18z".toList
    ∧ apple_maps_url quote lat lon label
      = "http://maps.apple.com/?ll=".toList
          ++ pyFixed 5 lat ++ [','] ++ pyFixed 5 lon
          ++ "&q=".toList ++ quote label
    ∧ fixedPointFive (pyFixed 5 lat) lat
    ∧ fixedPointFive (pyFixed 5 lon) lon := by
  refine ⟨?_, ?_, pyFixed_fixedPointFive lat, pyFixed_fixedPointFive lon⟩
  · unfold google_maps_url
    rw [pyFormatFloat_no_pad (by norm_num), pyFormatFloat_no_pad (by norm_num)]
  · unfold apple_maps_url
    rw [pyFormatFloat_no_pad (by norm_num), pyFormatFloat_no_pad (by norm_num)]

/-! ### `latlon_to_usng` and `usng_to_latlon` (extras.py lines 63-94)

```python
def latlon_to_usng(latitude, longitude, precision=4):
    m = _mgrs.MGRS()
    usng = m.toMGRS(latitude, longitude, MGRSPrecision=precision).decode('ascii')
    usng_fmt = []
    usng_fmt.append(usng[0:3])
    usng_fmt.append(usng[3:5])
    if precision > 0:
        gc =  usng[5:]
        idx_split = int(len(gc) / 2)
        usng_fmt.append(gc[0:idx_split])
        usng_fmt.append(gc[idx_split:])
    return ' '.join(usng_fmt)

def usng_to_latlon(usng):
    m = _mgrs.MGRS()
    return m.toLatLon(usng.replace(' ', '').encode('ascii'))
```

The `mgrs` library is external, so its encoder `toMGRS` and decoder
`toLatLon` are abstracted as function parameters; only the string
manipulation around them belongs to the repository.  A Python slice
`s[a:b]` on a nonnegative range is `(s.drop a).take (b - a)`, and
`int(len(gc) / 2)` is `gc.length / 2` (true division then truncation,
which on naturals is `Nat.div`). -/

/-- `' '.join(groups)`. -/
def joinSpace : List (List Char) → List Char
  | [] => []
  | [g] => g
  | g :: g2 :: gs => g ++ [' '] ++ joinSpace (g2 :: gs)

/-- Embedding of `latlon_to_usng`, with the `mgrs` encoder abstracted as
`toMGRS`. -/
def latlon_to_usng (toMGRS : ℚ → ℚ → ℕ → List Char)
    (latitude longitude : ℚ) (precision : ℕ := 4) : List Char :=
  let usng := toMGRS latitude longitude precision
  let g1 := usng.take 3
  let g2 := (usng.drop 3).take 2
  if 0 < precision then
    let gc := usng.drop 5
    let idx_split := gc.length / 2
    joinSpace [g1, g2, gc.take idx_split, gc.drop idx_split]
  else
    joinSpace [g1, g2]

/-- Embedding of `usng_to_latlon`, with the `mgrs` decoder abstracted as
`toLatLon`.  `usng.replace(' ', '')` removes every space. -/
def usng_to_latlon (toLatLon : List Char → ℚ × ℚ) (usng : List Char) : ℚ × ℚ :=
  toLatLon (usng.filter (fun c => c ≠ ' '))

theorem filter_no_space {l : List Char} (h : ∀ c ∈ l, c ≠ ' ') :
    l.filter (fun c => c ≠ ' ') = l := by
  apply List.filter_eq_self.mpr
  intro c hc
  simpa using h c hc

/-- C3. Removing the spaces that `latlon_to_usng` inserts recovers the raw
MGRS string character for character, so `usng_to_latlon` of a formatted
grid value decodes exactly the grid value the encoder assigned.  The two
hypotheses say the encoder output is a genuine MGRS string: it contains no
space (the MGRS alphabet is digits and letters), and at precision 0 it is
just the zone and square designators, at most 5 characters. -/
theorem usng_roundtrip (toMGRS : ℚ → ℚ → ℕ → List Char)
    (toLatLon : List Char → ℚ × ℚ) (lat lon : ℚ) (precision : ℕ)
    (hns : ∀ c ∈ toMGRS lat lon precision, c ≠ ' ')
    (hlen : precision = 0 → (toMGRS lat lon precision).length ≤ 5) :
    usng_to_latlon toLatLon (latlon_to_usng toMGRS lat lon precision)
      = toLatLon (toMGRS lat lon precision) := by
  unfold usng_to_latlon latlon_to_usng
  set usng := toMGRS lat lon precision with husng
  congr 1
  have hg1 : ∀ c ∈ usng.take 3, c ≠ ' ' := fun c hc => hns c (List.mem_of_mem_take hc)
  have hg2 : ∀ c ∈ (usng.drop 3).take 2, c ≠ ' ' := fun c hc =>
    hns c (List.mem_of_mem_drop (List.mem_of_mem_take hc))
  have hsp : ([' '] : List Char).filter (fun c => c ≠ ' ') = [] := by decide
  split
  · -- precision > 0: the four slices partition the string
    have hgc : ∀ c ∈ usng.drop 5, c ≠ ' ' := fun c hc => hns c (List.mem_of_mem_drop hc)
    have hh1 : ∀ c ∈ (usng.drop 5).take ((usng.drop 5).length / 2), c ≠ ' ' :=
      fun c hc => hgc c (List.mem_of_mem_take hc)
    have hh2 : ∀ c ∈ (usng.drop 5).drop ((usng.drop 5).length / 2), c ≠ ' ' :=
      fun c hc => hgc c (List.mem_of_mem_drop hc)
    simp only [joinSpace, List.filter_append]
    rw [filter_no_space hg1, filter_no_space hg2, filter_no_space hh1, filter_no_space hh2,
      hsp]
    simp only [List.append_nil, List.nil_append, List.append_assoc]
    rw [List.take_append_drop ((usng.drop 5).length / 2) (usng.drop 5)]
    have hdd : usng.drop 5 = (usng.drop 3).drop 2 := by
      rw [List.drop_drop]
    rw [hdd, List.take_append_drop 2 (usng.drop 3), List.take_append_drop 3 usng]
  · -- precision = 0: the two slices are the whole (≤ 5 character) string
    rename_i hpre
    have h5 : usng.length ≤ 5 := hlen (by omega)
    simp only [joinSpace, List.filter_append]
    rw [filter_no_space hg1, filter_no_space hg2, hsp]
    simp only [List.append_nil, List.nil_append]
    rw [← List.take_add]
    exact List.take_of_length_le h5

/-- C6. The formatted USNG value consists, in order, of characters 0-2
(grid zone), characters 3-4 (100 km square), and — only when the precision
is positive — the remaining numerical part split at half its length into
two equal halves of `p` digits each (easting then northing); at precision 0
the result is exactly the two leading groups.  The hypothesis states the
MGRS encoder's output shape: 5 leading characters plus `2 * p` digits. -/
theorem latlon_to_usng_grouping (toMGRS : ℚ → ℚ → ℕ → List Char)
    (lat lon : ℚ) (p : ℕ)
    (hlen : (toMGRS lat lon p).length = 5 + 2 * p) :
    (0 < p →
      latlon_to_usng toMGRS lat lon p
        = (toMGRS lat lon p).take 3 ++ [' '] ++ ((toMGRS lat lon p).drop 3).take 2
          ++ [' '] ++ ((toMGRS lat lon p).drop 5).take p
          ++ [' '] ++ ((toMGRS lat lon p).drop 5).drop p
      ∧ (((toMGRS lat lon p).drop 5).take p).length = p
      ∧ (((toMGRS lat lon p).drop 5).drop p).length = p)
    ∧ (p = 0 →
      latlon_to_usng toMGRS lat lon p
        = (toMGRS lat lon p).take 3 ++ [' '] ++ ((toMGRS lat lon p).drop 3).take 2) := by
  have hgc : ((toMGRS lat lon p).drop 5).length = 2 * p := by
    rw [List.length_drop, hlen]; omega
  constructor
  · intro hp
    have hidx : ((toMGRS lat lon p).drop 5).length / 2 = p := by omega
    refine ⟨?_, ?_, ?_⟩
    · simp only [latlon_to_usng]
      rw [if_pos hp, hidx]
      simp [joinSpace, List.append_assoc]
    · rw [List.length_take]; omega
    · rw [List.length_drop]; omega
  · intro hp0
    simp only [latlon_to_usng]
    rw [if_neg (by omega)]
    simp [joinSpace, List.append_assoc]

/-! ### `fix_fgdb_files` (extras.py lines 27-37)

```python
def fix_fgdb_files(dir):
    _os.chdir(dir)
    for file in _os.listdir():
        _os.rename(file, file.split('\\')[1])
```

The directory is modelled as the ordered list of its file names (the
`os.listdir()` snapshot).  `file.split('\\')[1]` raises `IndexError` when
the name contains no backslash; the exception propagates out of the loop,
so the remaining files are left untouched.  The result is the final list
of names paired with whether an exception was raised (name collisions
between rename targets are not modelled). -/

/-- Python `str.split(sep)` for a one-character separator: the (always
nonempty) list of the segments between occurrences of `sep`. -/
def pySplit (sep : Char) : List Char → List (List Char)
  | [] => [[]]
  | c :: rest =>
    if c = sep then [] :: pySplit sep rest
    else
      match pySplit sep rest with
      | [] => [[c]]
      | p :: ps => (c :: p) :: ps

/-- Embedding of `fix_fgdb_files` on the listing of the directory. -/
def fix_fgdb_files : List (List Char) → List (List Char) × Bool
  | [] => ([], false)
  | f :: rest =>
    match (pySplit '\\' f).get? 1 with
    | some g =>
      let r := fix_fgdb_files rest
      (g :: r.1, r.2)
    | none => (f :: rest, true)

/-- The segment of a name immediately after its first backslash, stated
independently of `pySplit`. -/
def segAfterFirstBackslash (f : List Char) : List Char :=
  ((f.dropWhile (fun c => c ≠ '\\')).drop 1).takeWhile (fun c => c ≠ '\\')

theorem pySplit_ne_nil (sep : Char) : ∀ l, pySplit sep l ≠ []
  | [] => by simp [pySplit]
  | c :: rest => by
    simp only [pySplit]
    split
    · simp
    · split <;> simp

theorem pySplit_head (sep : Char) : ∀ l : List Char,
    (pySplit sep l).head? = some (l.takeWhile (fun c => c ≠ sep))
  | [] => by simp [pySplit]
  | c :: rest => by
    simp only [pySplit]
    split
    · rename_i hc
      subst hc
      simp [List.takeWhile]
    · rename_i hc
      have ih := pySplit_head sep rest
      split
      · rename_i hnil
        exact absurd hnil (pySplit_ne_nil sep rest)
      · rename_i p ps hps
        rw [hps] at ih
        simp at ih
        simp [List.takeWhile, hc, ih]

theorem pySplit_get1 (sep : Char) : ∀ l : List Char, sep ∈ l →
    (pySplit sep l).get? 1
      = some (((l.dropWhile (fun c => c ≠ sep)).drop 1).takeWhile (fun c => c ≠ sep))
  | [] => by simp
  | c :: rest => by
    intro hmem
    simp only [pySplit]
    split
    · rename_i hc
      subst hc
      rw [List.dropWhile_cons]
      simp only [ne_eq, not_true_eq_false, decide_False, Bool.false_eq_true,
        if_false, List.drop_succ_cons, List.drop_zero]
      have hh := pySplit_head c rest
      rcases hps : pySplit c rest with _ | ⟨p, ps⟩
      · exact absurd hps (pySplit_ne_nil c rest)
      · rw [hps] at hh
        simp at hh
        simp [hh]
    · rename_i hc
      have hrest : sep ∈ rest := by
        rcases List.mem_cons.mp hmem with h | h
        · exact absurd h.symm hc
        · exact h
      have ih := pySplit_get1 sep rest hrest
      rw [List.dropWhile_cons]
      simp only [ne_eq, hc, not_false_eq_true, decide_True, if_true]
      split
      · rename_i hnil
        exact absurd hnil (pySplit_ne_nil sep rest)
      · rename_i p ps hps
        rw [hps] at ih
        simpa using ih

/-- C7 counterexample.  In a directory listing `["plain", "x\y"]` the file
`"x\y"` does contain a backslash, yet the run raises (on `"plain"`, whose
split has no index 1) and leaves `"x\y"` unrenamed — the claim's renaming
guarantee fails, as does "every file is processed". -/
theorem fix_fgdb_files_not_total :
    ('\\' ∈ "x\\y".toList)
    ∧ fix_fgdb_files ["plain".toList, "x\\y".toList]
        = (["plain".toList, "x\\y".toList], true)
    ∧ segAfterFirstBackslash "x\\y".toList ≠ "x\\y".toList := by
  refine ⟨by decide, ?_, by decide⟩
  decide

/-- C7 (amended). Provided every file name in the directory contains a
backslash, every file is processed and renamed to the segment immediately
after its first backslash, and no exception is raised. -/
theorem fix_fgdb_files_correct (files : List (List Char))
    (h : ∀ f ∈ files, '\\' ∈ f) :
    fix_fgdb_files files = (files.map segAfterFirstBackslash, false) := by
  induction files with
  | nil => rfl
  | cons f rest ih =>
    have hf : '\\' ∈ f := h f (List.mem_cons_self f rest)
    have hrest : ∀ g ∈ rest, '\\' ∈ g := fun g hg => h g (List.mem_cons_of_mem f hg)
    have hsplit := pySplit_get1 '\\' f hf
    simp only [fix_fgdb_files, hsplit, ih hrest, List.map_cons, segAfterFirstBackslash]

/-- Closed witness for `fix_fgdb_files_correct`. -/
theorem fix_fgdb_files_correct_witness :
    (∀ f ∈ ["a\\b".toList, "dir\\data.gdb".toList], '\\' ∈ f)
    ∧ fix_fgdb_files ["a\\b".toList, "dir\\data.gdb".toList]
        = (["a\\b".toList, "dir\\data.gdb".toList].map segAfterFirstBackslash, false) :=
  ⟨by decide, fix_fgdb_files_correct ["a\\b".toList, "dir\\data.gdb".toList] (by decide)⟩

/-! ### `_patched_copy_feature_layer_collection` (extras.py lines 173-315)

The method is a sequential workflow against the remote `arcgis` SDK.  The
remote state and SDK responses are abstracted into an environment `Env`,
and the run's outward effects are recorded in `CopyResult`: the outcome
(returned value or raised exception), the names passed to
`create_service`, the `params['name']` and item title used there, and
whether a cleanup deletion was attempted (with `delete_err_suppressed`
recording a raising `delete()` swallowed by the source's
`try: ... except: pass`).

After the type check (lines 211-213) and the both-`None` check (214-215),
line 216 reads `content = self._gis.content` (no observable effect) and
line 217 runs `if isinstance(owner, User):`.  The name `User` is never
imported in extras.py — the module imports only `os`, `urllib`, `mgrs`,
`numpy`, two constants, `Halo` and `Item`, and `User` appears elsewhere
only in the docstring — so resolving it raises `NameError` on every run
that reaches line 217.  The service-name search (234-245, whose `while`
loop the `fuel` argument was to bound), the layers/tables processing
(250-271), `create_service` (275-287), `add_to_definition` (308) and the
success check with its best-effort cleanup (309-315) are therefore
unreachable: dead code on every path. -/

/-- The `layers` / `tables` argument: `None`, a list/tuple of ints, a
string, or a value of any other type. -/
inductive Arg where
  | nonePy
  | listPy (xs : List Int)
  | strPy (s : List Char)
  | otherPy
  deriving DecidableEq, Repr

/-- A created service item, as far as the claims observe it (no run ever
produces one, see `copy_flc_no_name_chosen`). -/
structure ItemRec where
  name : List Char
  title : List Char
  deriving DecidableEq, Repr

/-- What a run of the method returns or raises. -/
inductive Outcome where
  | returns (item : Option ItemRec)
  | raises (e : PyErr)
  deriving DecidableEq, Repr

/-- The abstracted remote environment: `item_type` is `self.type`;
`self_layers` / `self_tables` are ids of `self.layers` / `self.tables`;
`avail`, `add_success` and `delete_raises` abstract the SDK responses
(`is_service_name_available`, `add_to_definition`'s `'success'` field,
whether `copied_item.delete()` raises) that the method text consults after
line 217 — the unconditional `NameError` there means no run ever reads
them. -/
structure Env where
  item_type : List Char
  self_layers : List ℕ
  self_tables : List ℕ
  avail : List Char → Bool
  add_success : Bool
  delete_raises : Bool

/-- The observable effects of one run. -/
structure CopyResult where
  outcome : Outcome
  created : List (List Char)
  params_name : Option (List Char)
  item_title : Option (List Char)
  delete_attempted : Bool
  delete_err_suppressed : Bool
  deriving DecidableEq, Repr

/-- Embedding of `_patched_copy_feature_layer_collection`, following the
source's order: type check (lines 211-213, returning `None` for other item
types), `None`-arguments check (214-215, `ValueError`), then line 217's
`isinstance(owner, User)` with `User` unresolvable: `NameError`.  The
`fuel` argument would bound the name-search `while` loop of lines 238-245,
which no run reaches. -/
def copy_feature_layer_collection (env : Env) (service_name : List Char)
    (layers tables : Arg) (fuel : ℕ) : CopyResult :=
  if ¬(env.item_type = "Feature Service".toList
      ∨ env.item_type = "Feature Layer Collection".toList) then
    ⟨.returns none, [], none, none, false, false⟩
  else if layers = .nonePy ∧ tables = .nonePy then
    ⟨.raises .valueError, [], none, none, false, false⟩
  else
    ⟨.raises .nameError, [], none, none, false, false⟩

/-! ### Concrete environments used by the claim theorems and witnesses -/

/-- A feature service whose `add_to_definition` would fail and whose
cleanup `delete()` would itself raise. -/
def envAddFails : Env where
  item_type := "Feature Service".toList
  self_layers := [7]
  self_tables := []
  avail := fun _ => true
  add_success := false
  delete_raises := true

/-- A feature service where every name would be available and the copy
would succeed. -/
def envAllFree : Env where
  item_type := "Feature Service".toList
  self_layers := [7]
  self_tables := []
  avail := fun _ => true
  add_success := true
  delete_raises := false

/-- An item of a non-feature-service type. -/
def envWebMap : Env where
  item_type := "Web Map".toList
  self_layers := []
  self_tables := []
  avail := fun _ => true
  add_success := true
  delete_raises := false

/-- C1 (code bug).  The claim states the create / `add_to_definition` /
cleanup behaviour that the method's own docstring promises ("Item on
success. None on failure"), but `User` is never imported: at the claim's
scenario — a Feature Service item with a layer, `layers=[0]`,
`add_to_definition` set to fail and `delete()` set to raise — the run
raises `NameError` at line 217 instead; no service item is ever created,
no deletion is attempted and neither return branch runs. -/
theorem copy_flc_nameerror_run :
    copy_feature_layer_collection envAddFails "svc".toList (.listPy [0]) .nonePy 1
      = ⟨.raises .nameError, [], none, none, false, false⟩ := by decide

/-- C2 (code bug).  The claim states the availability-checked name
selection that `create_service`, `params['name']` and the item title were
meant to receive, but the name search and `create_service` sit behind line
217's unconditional `NameError`: no run of the method ever records a
created service, a `params['name']` or an item title. -/
theorem copy_flc_no_name_chosen (env : Env) (sn : List Char)
    (layers tables : Arg) (fuel : ℕ) :
    (copy_feature_layer_collection env sn layers tables fuel).created = []
    ∧ (copy_feature_layer_collection env sn layers tables fuel).params_name = none
    ∧ (copy_feature_layer_collection env sn layers tables fuel).item_title = none := by
  unfold copy_feature_layer_collection
  split
  · exact ⟨rfl, rfl, rfl⟩
  · split
    · exact ⟨rfl, rfl, rfl⟩
    · exact ⟨rfl, rfl, rfl⟩

/-- C9 counterexample.  At a concrete input that reaches the argument
stage in the claim's sense (a Feature Service item, `layers="0"`,
`tables=None`), the run raises `NameError` — not the `TypeError` the claim
asserts — and no service is created. -/
theorem copy_flc_string_layers_not_typeerror :
    (copy_feature_layer_collection envAllFree "svc".toList
        (.strPy "0".toList) .nonePy 1).outcome = .raises .nameError
    ∧ (copy_feature_layer_collection envAllFree "svc".toList
        (.strPy "0".toList) .nonePy 1).outcome ≠ .raises .typeError
    ∧ (copy_feature_layer_collection envAllFree "svc".toList
        (.strPy "0".toList) .nonePy 1).created = [] := by decide

/-- C9 (amended).  A non-empty string `layers` argument still never
succeeds and no service is ever created — but the failure is the
`NameError` of line 217 (`User` is not imported), raised before the
comma-split pieces, which lines 256-257 would have used directly as list
indices without integer conversion, are ever processed. -/
theorem copy_flc_string_layers_nameerror (env : Env) (sn s : List Char)
    (tables : Arg) (fuel : ℕ) (hs : s ≠ [])
    (htype : env.item_type = "Feature Service".toList
      ∨ env.item_type = "Feature Layer Collection".toList) :
    (copy_feature_layer_collection env sn (.strPy s) tables fuel).outcome
        = .raises .nameError
    ∧ (copy_feature_layer_collection env sn (.strPy s) tables fuel).created = [] := by
  unfold copy_feature_layer_collection
  rw [if_neg (not_not_intro htype), if_neg (by simp)]
  exact ⟨rfl, rfl⟩

/-- C10. When the item's type is neither `"Feature Service"` nor
`"Feature Layer Collection"`, the method returns `None` at once: no
argument validation (no `ValueError` even with both `layers` and `tables`
`None`), no service created, nothing deleted. -/
theorem copy_flc_wrong_type (env : Env) (sn : List Char) (layers tables : Arg)
    (fuel : ℕ)
    (h1 : env.item_type ≠ "Feature Service".toList)
    (h2 : env.item_type ≠ "Feature Layer Collection".toList) :
    copy_feature_layer_collection env sn layers tables fuel
      = ⟨.returns none, [], none, none, false, false⟩ := by
  have hcond : ¬(env.item_type = "Feature Service".toList
      ∨ env.item_type = "Feature Layer Collection".toList) :=
    fun hor => hor.elim h1 h2
  unfold copy_feature_layer_collection
  rw [if_pos hcond]

/-- Closed witness for `copy_flc_string_layers_nameerror`. -/
theorem copy_flc_string_layers_nameerror_witness :
    ("0".toList ≠ ([] : List Char)
      ∧ (envAllFree.item_type = "Feature Service".toList
        ∨ envAllFree.item_type = "Feature Layer Collection".toList))
    ∧ ((copy_feature_layer_collection envAllFree "svc".toList
          (.strPy "0".toList) .nonePy 1).outcome = .raises .nameError
      ∧ (copy_feature_layer_collection envAllFree "svc".toList
          (.strPy "0".toList) .nonePy 1).created = []) :=
  ⟨⟨by decide, by decide⟩,
    copy_flc_string_layers_nameerror envAllFree "svc".toList "0".toList .nonePy 1
      (by decide) (by decide)⟩

/-- Closed witness for `copy_flc_wrong_type`. -/
theorem copy_flc_wrong_type_witness :
    (envWebMap.item_type ≠ "Feature Service".toList
      ∧ envWebMap.item_type ≠ "Feature Layer Collection".toList)
    ∧ copy_feature_layer_collection envWebMap "svc".toList .nonePy .nonePy 1
        = ⟨.returns none, [], none, none, false, false⟩ :=
  ⟨⟨by decide, by decide⟩,
    copy_flc_wrong_type envWebMap "svc".toList .nonePy .nonePy 1
      (by decide) (by decide)⟩

/-- Closed witness for `round_significant_correct` at `x = 3`, `p = 2`. -/
theorem round_significant_correct_witness :
    (0 < (3 : ℚ) ∧ 1 ≤ 2)
    ∧ (round_significant 3 2
        = .ok (npAround 3 (-⌊Real.logb 10 ((3 : ℚ) : ℝ)⌋ + ((2 : ℤ) - 1)))
      ∧ (∃ m : ℕ, ∃ e : ℤ,
          round_significant 3 2 = .ok ((m : ℚ) * (10 : ℚ) ^ e) ∧ m < 10 ^ 2)
      ∧ round_significant 3 = round_significant 3 2) :=
  ⟨⟨by norm_num, by norm_num⟩,
    round_significant_correct 3 2 (by norm_num) (by norm_num)⟩

/-- Closed witness for `usng_roundtrip` on a concrete encoder output. -/
theorem usng_roundtrip_witness :
    ((∀ c ∈ (fun _ _ _ => "18SUJ2306".toList : ℚ → ℚ → ℕ → List Char) 38 (-77) 2,
        c ≠ ' ')
      ∧ ((2 : ℕ) = 0 →
        ((fun _ _ _ => "18SUJ2306".toList : ℚ → ℚ → ℕ → List Char) 38 (-77) 2).length
          ≤ 5))
    ∧ usng_to_latlon (fun _ => ((385 : ℚ) / 10, -77))
        (latlon_to_usng (fun _ _ _ => "18SUJ2306".toList) 38 (-77) 2)
      = (fun _ => ((385 : ℚ) / 10, -77)) "18SUJ2306".toList :=
  ⟨⟨by decide, by decide⟩,
    usng_roundtrip (fun _ _ _ => "18SUJ2306".toList) (fun _ => ((385 : ℚ) / 10, -77))
      38 (-77) 2 (by decide) (by decide)⟩

/-- Closed witness for `latlon_to_usng_grouping` on a concrete encoder
output of precision 2. -/
theorem latlon_to_usng_grouping_witness :
    ((fun _ _ _ => "18SUJ2306".toList : ℚ → ℚ → ℕ → List Char) 38 (-77) 2).length
        = 5 + 2 * 2
    ∧ ((0 < 2 →
        latlon_to_usng (fun _ _ _ => "18SUJ2306".toList) 38 (-77) 2
          = "18SUJ2306".toList.take 3 ++ [' '] ++ ("18SUJ2306".toList.drop 3).take 2
            ++ [' '] ++ ("18SUJ2306".toList.drop 5).take 2
            ++ [' '] ++ ("18SUJ2306".toList.drop 5).drop 2
        ∧ (("18SUJ2306".toList.drop 5).take 2).length = 2
        ∧ (("18SUJ2306".toList.drop 5).drop 2).length = 2)
      ∧ ((2 : ℕ) = 0 →
        latlon_to_usng (fun _ _ _ => "18SUJ2306".toList) 38 (-77) 2
          = "18SUJ2306".toList.take 3 ++ [' '] ++ ("18SUJ2306".toList.drop 3).take 2)) :=
  ⟨by decide,
    latlon_to_usng_grouping (fun _ _ _ => "18SUJ2306".toList) 38 (-77) 2 (by decide)⟩
